import Mathlib

/-!
Shallow embedding of the in-memory record store's query language
(`src/inmemorydb/query_parser.py`, `src/inmemorydb/database.py`) and of the
older free-function pipeline (`src/old_main.py`).

Modelling conventions:
* Python strings are `List Char`.  Character classes (`\w`, `\s`, `str.upper`,
  `str.lower`) are modelled on the ASCII range, which covers every string the
  program's grammar and the concrete inputs below involve.
* Python numbers are `PyNum`: exact rationals plus the special values
  `inf`, `-inf`, `nan` that `float()` can produce.  IEEE-754 rounding of
  decimal literals is abstracted to exact rational values; no statement in
  this development depends on rounding.
* A raised Python exception is an `Except` error value: `ValueError` from
  parsing is a `QErr` parse constructor, the `TypeError` raised by an
  ordering comparison between a number and a string is `QErr.typeErr`.
-/

namespace InMemoryDB

/-- Python `\w` (ASCII range): letters, digits, underscore. -/
def isWordChar (c : Char) : Bool := c.isAlphanum || c = '_'

/-- Python `\s` / `str.strip` whitespace (ASCII range). -/
def isSpaceChar (c : Char) : Bool :=
  c = ' ' || c = '\t' || c = '\n' || c = '\r' || c = '\x0b' || c = '\x0c'

/-- Python `str.strip()`: remove leading and trailing whitespace. -/
def pyStrip (s : List Char) : List Char :=
  ((s.dropWhile isSpaceChar).reverse.dropWhile isSpaceChar).reverse

/-- Python `str.startswith(pat)` (second argument is the pattern). -/
def startsWithChars : List Char → List Char → Bool
  | _, [] => true
  | [], _ :: _ => false
  | c :: s, d :: t => c = d && startsWithChars s t

/-- Python `str.upper()` (ASCII range). -/
def toUpperChars (s : List Char) : List Char := s.map Char.toUpper

/-- Opening quote characters of `parse_value` / the condition regex:
`'`, `"`, and the left curly single quote. -/
def isOpenQuote (c : Char) : Bool := c = '\'' || c = '"' || c = '‘'

/-- Closing quote characters of `parse_value` / the condition regex:
`'`, `"`, and the right curly single quote. -/
def isCloseQuote (c : Char) : Bool := c = '\'' || c = '"' || c = '’'

/-- The two plain quote characters excluded by the regex class `[^"\']`. -/
def isPlainQuote (c : Char) : Bool := c = '\'' || c = '"'

/-- An exact decimal number `mant / 10 ^ exp10`.  Decimal literals and the
scalings `float()` performs stay inside this fragment of ℚ, and its
comparisons reduce to integer comparisons, so terms evaluate by kernel
reduction. -/
structure DecNum where
  mant : Int
  exp10 : Nat
deriving DecidableEq, Repr

/-- The rational a `DecNum` denotes. -/
def DecNum.toRat (d : DecNum) : ℚ := (d.mant : ℚ) / (10 : ℚ) ^ d.exp10

/-- Numeric equality of two `DecNum`s, by cross-multiplication. -/
def decNumEqv (a b : DecNum) : Bool :=
  a.mant * (10 : Int) ^ b.exp10 = b.mant * (10 : Int) ^ a.exp10

/-- Numeric strict order on `DecNum`s, by cross-multiplication. -/
def decNumLt (a b : DecNum) : Bool :=
  a.mant * (10 : Int) ^ b.exp10 < b.mant * (10 : Int) ^ a.exp10

theorem decNumEqv_iff_toRat (a b : DecNum) :
    decNumEqv a b = true ↔ a.toRat = b.toRat := by
  have h10a : (0 : ℚ) < (10 : ℚ) ^ a.exp10 := by positivity
  have h10b : (0 : ℚ) < (10 : ℚ) ^ b.exp10 := by positivity
  rw [decNumEqv, DecNum.toRat, DecNum.toRat, decide_eq_true_eq,
    div_eq_div_iff (ne_of_gt h10a) (ne_of_gt h10b)]
  constructor
  · intro h
    exact_mod_cast congrArg (fun z : Int => (z : ℚ)) h
  · intro h
    exact_mod_cast h

theorem decNumLt_iff_toRat (a b : DecNum) :
    decNumLt a b = true ↔ a.toRat < b.toRat := by
  have h10a : (0 : ℚ) < (10 : ℚ) ^ a.exp10 := by positivity
  have h10b : (0 : ℚ) < (10 : ℚ) ^ b.exp10 := by positivity
  rw [decNumLt, DecNum.toRat, DecNum.toRat, decide_eq_true_eq,
    div_lt_div_iff₀ h10a h10b]
  constructor
  · intro h
    exact_mod_cast h
  · intro h
    exact_mod_cast h

/-- A Python float value as produced by `float(...)`: finite values are kept
exactly (IEEE rounding abstracted); `inf`, `-inf` and `nan` are the
specials. -/
inductive PyNum where
  | fin (d : DecNum)
  | pinf
  | ninf
  | nan
deriving DecidableEq, Repr

/-- Python `<` on float values (`nan` compares false with everything). -/
def pyNumLt : PyNum → PyNum → Bool
  | .fin a, .fin b => decNumLt a b
  | .fin _, .pinf => true
  | .fin _, _ => false
  | .ninf, .fin _ => true
  | .ninf, .pinf => true
  | .ninf, _ => false
  | .pinf, _ => false
  | .nan, _ => false

/-- Python `==` on float values (`nan == nan` is false). -/
def pyNumEq : PyNum → PyNum → Bool
  | .fin a, .fin b => decNumEqv a b
  | .pinf, .pinf => true
  | .ninf, .ninf => true
  | _, _ => false

/-- Python `<=` on float values. -/
def pyNumLe (a b : PyNum) : Bool := pyNumLt a b || pyNumEq a b

/-- Numeric value of an ASCII digit. -/
def digitVal (c : Char) : Nat := c.toNat - 48

/-- Scan a digit run in the style of CPython's float parser: digits with a
single underscore allowed between two digits.  Returns the accumulated value,
the number of digits consumed, and the unconsumed remainder. -/
def scanDigits : List Char → Nat → Nat → Nat × Nat × List Char
  | [], acc, n => (acc, n, [])
  | c :: rest, acc, n =>
    if c.isDigit then scanDigits rest (acc * 10 + digitVal c) (n + 1)
    else if c = '_' then
      match rest with
      | d :: rest2 =>
        if d.isDigit then scanDigits rest2 (acc * 10 + digitVal d) (n + 1)
        else (acc, n, c :: rest)
      | [] => (acc, n, [c])
    else (acc, n, c :: rest)

/-- The unsigned numeric literal body accepted by Python `float()`:
`digits [. digits] [exp]` or `. digits [exp]`, exponent `e|E [sign] digits`.
Must consume the whole input.  The value `intpart.fracpart × 10^±exp` is
assembled as an exact `DecNum`. -/
def parseNumberBody (s : List Char) : Option DecNum :=
  let (ip, ipn, r1) :=
    match s with
    | c :: rest => if c.isDigit then scanDigits rest (digitVal c) 1 else (0, 0, s)
    | [] => (0, 0, ([] : List Char))
  let (fp, fpn, r2) :=
    match r1 with
    | '.' :: rest =>
      match rest with
      | c :: rest2 => if c.isDigit then scanDigits rest2 (digitVal c) 1 else (0, 0, rest)
      | [] => (0, 0, ([] : List Char))
    | _ => (0, 0, r1)
  if ipn + fpn = 0 then none
  else
    let m : DecNum := ⟨(ip : Int) * (10 : Int) ^ fpn + (fp : Int), fpn⟩
    match r2 with
    | [] => some m
    | c :: rest =>
      if c = 'e' || c = 'E' then
        let (eneg, r3) :=
          match rest with
          | '+' :: r => (false, r)
          | '-' :: r => (true, r)
          | r => (false, r)
        match r3 with
        | d :: r4 =>
          if d.isDigit then
            let (ev, _, r5) := scanDigits r4 (digitVal d) 1
            if r5 = [] then
              some (if eneg then ⟨m.mant, m.exp10 + ev⟩
                    else ⟨m.mant * (10 : Int) ^ ev, m.exp10⟩)
            else none
          else none
        | [] => none
      else none

/-- Case-insensitive comparison of `s` with an all-lowercase target `t`. -/
def ciMatch : List Char → List Char → Bool
  | [], [] => true
  | c :: s, d :: t => c.toLower = d && ciMatch s t
  | _, _ => false

/-- The optional leading sign of a float literal: the flag is whether the
value is negated, the list is the rest. -/
def splitSign : List Char → Bool × List Char
  | c :: r =>
    if c = '+' then (false, r)
    else if c = '-' then (true, r)
    else (false, c :: r)
  | [] => (false, [])

/-- The body of `float(s)` after sign handling: either an
`inf`/`infinity`/`nan` spelling (case-insensitive) or a numeric body. -/
def pyFloatSigned (neg : Bool) (s2 : List Char) : Option PyNum :=
  if ciMatch s2 ("inf").data || ciMatch s2 ("infinity").data then
    some (if neg then .ninf else .pinf)
  else if ciMatch s2 ("nan").data then some .nan
  else
    match parseNumberBody s2 with
    | some d => some (.fin (if neg then ⟨-d.mant, d.exp10⟩ else d))
    | none => none

/-- Python `float(s)`: strip whitespace, split the optional sign, then parse
the body.  `none` models the `ValueError`. -/
def pyFloat (s0 : List Char) : Option PyNum :=
  pyFloatSigned (splitSign (pyStrip s0)).1 (splitSign (pyStrip s0)).2

/-!
`CONDITION_PATTERN` of `QueryParser` (identical to the pattern in
`old_main.parse_condition`):

    (\w+)\s*(=|!=|<=|>=|<|>)\s*([\'"‘]?[^"\']+[\'"’]?)

applied with `re.match` (anchored at the start, not at the end).  The
functions below implement Python's leftmost greedy-with-backtracking
semantics for exactly this pattern.
-/

/-- The value part `[\'"‘]?[^"\']+[\'"’]?` when the optional opening quote is
not taken: a nonempty greedy run (`takeWhile`) of non-plain-quote
characters, then the optional closing quote (the stopping character, if any,
is always `'` or `"`, both of which the closing class accepts). -/
def tryBareValue (s : List Char) : Option (List Char) :=
  if (s.takeWhile (fun c => !isPlainQuote c)).isEmpty then none
  else
    match s.dropWhile (fun c => !isPlainQuote c) with
    | c :: _ =>
      if isCloseQuote c then some (s.takeWhile (fun c => !isPlainQuote c) ++ [c])
      else some (s.takeWhile (fun c => !isPlainQuote c))
    | [] => some (s.takeWhile (fun c => !isPlainQuote c))

/-- The value part `[\'"‘]?[^"\']+[\'"’]?`: greedily try the opening quote
first; if the mandatory run after it would be empty, backtrack to the
no-opening-quote alternative. -/
def tryValue : List Char → Option (List Char)
  | [] => none
  | c :: rest =>
    if isOpenQuote c then
      if (rest.takeWhile (fun d => !isPlainQuote d)).isEmpty then tryBareValue (c :: rest)
      else
        match rest.dropWhile (fun d => !isPlainQuote d) with
        | d :: _ =>
          if isCloseQuote d then some (c :: (rest.takeWhile (fun d => !isPlainQuote d) ++ [d]))
          else some (c :: rest.takeWhile (fun d => !isPlainQuote d))
        | [] => some (c :: rest.takeWhile (fun d => !isPlainQuote d))
    else tryBareValue (c :: rest)

/-- `\s*` before the value, greedy: consume the maximal whitespace run first,
then give characters back one at a time while the value part fails (a space
is itself a `[^"\']` character, so backtracking here can succeed). -/
def valueAfterWsAux : List Char → List Char → Option (List Char)
  | spRev, rest =>
    match tryValue rest with
    | some v => some v
    | none =>
      match spRev with
      | [] => none
      | c :: spRev2 => valueAfterWsAux spRev2 (c :: rest)

/-- `\s*` then the value part, with backtracking. -/
def valueAfterWs (s : List Char) : Option (List Char) :=
  valueAfterWsAux (s.takeWhile isSpaceChar).reverse (s.dropWhile isSpaceChar)

/-- The operator alternation `=|!=|<=|>=|<|>` in the pattern's order: the
first alternative that is a prefix here and whose continuation (whitespace
then value) succeeds wins; on continuation failure the next alternative is
tried (`<=` falls back to `<`, `>=` to `>`). -/
def tryOps : List (List Char) → List Char → Option (List Char × List Char)
  | [], _ => none
  | op :: more, s =>
    if startsWithChars s op then
      match valueAfterWs (s.drop op.length) with
      | some v => some (op, v)
      | none => tryOps more s
    else tryOps more s

/-- The pattern's operator alternatives, in source order. -/
def opAlternatives : List (List Char) :=
  [("=").data, ("!=").data, ("<=").data, (">=").data, ("<").data, (">").data]

/-- `\s*` between field and operator, greedy with backtracking (no operator
starts with a whitespace character, so only the maximal run can succeed, but
the backtracking is modelled faithfully). -/
def opAfterWsAux : List Char → List Char → Option (List Char × List Char)
  | spRev, rest =>
    match tryOps opAlternatives rest with
    | some r => some r
    | none =>
      match spRev with
      | [] => none
      | c :: spRev2 => opAfterWsAux spRev2 (c :: rest)

/-- `\s*` then operator then `\s*` then value. -/
def opAfterWs (s : List Char) : Option (List Char × List Char) :=
  opAfterWsAux (s.takeWhile isSpaceChar).reverse (s.dropWhile isSpaceChar)

/-- `(\w+)` greedy with backtracking: start from the maximal word-character
run (passed reversed) and shorten it while the continuation fails; the group
must stay nonempty. -/
def fieldAux : List Char → List Char → Option (List Char × List Char × List Char)
  | [], _ => none
  | c :: fieldRev2, rest =>
    match opAfterWs rest with
    | some (op, v) => some ((c :: fieldRev2).reverse, op, v)
    | none => fieldAux fieldRev2 (c :: rest)

/-- `re.match(CONDITION_PATTERN, s)`: the three groups
(field, operator, value) of the leftmost greedy match, if any. -/
def matchCond (s : List Char) : Option (List Char × List Char × List Char) :=
  fieldAux (s.takeWhile isWordChar).reverse (s.dropWhile isWordChar)

/-!  Splitting a conditions string. -/

/-- A separator match of `re.split(r"\s+AND\s+", ..., flags=IGNORECASE)`
starting at the head of `s`: one-or-more whitespace, `AND` case-insensitive,
one-or-more whitespace (both runs greedy).  Returns the number of characters
the separator consumes. -/
def matchAndSep (s : List Char) : Option Nat :=
  let sp := s.takeWhile isSpaceChar
  if sp.length = 0 then none
  else
    match s.drop sp.length with
    | a :: n :: d :: r2 =>
      if (a = 'A' || a = 'a') && (n = 'N' || n = 'n') && (d = 'D' || d = 'd') then
        let sp2 := r2.takeWhile isSpaceChar
        if sp2.length = 0 then none else some (sp.length + 3 + sp2.length)
      else none
    | _ => none

theorem takeWhile_length_le (p : Char → Bool) (l : List Char) :
    (l.takeWhile p).length ≤ l.length := by
  induction l with
  | nil => simp [List.takeWhile]
  | cons c t ih =>
    by_cases h : p c = true
    · simp [List.takeWhile, h]; omega
    · simp [List.takeWhile, h]

theorem matchAndSep_consumed_lt (s : List Char) (k : Nat)
    (h : matchAndSep s = some k) : (s.drop k).length < s.length := by
  unfold matchAndSep at h
  simp only [] at h
  split at h
  · exact absurd h (by simp)
  · rename_i hsp
    split at h
    · rename_i a n d r2 hdrop
      split at h
      · split at h
        · exact absurd h (by simp)
        · rename_i hsp2
          injection h with h2
          have hlen : (s.drop (s.takeWhile isSpaceChar).length).length =
              s.length - (s.takeWhile isSpaceChar).length := List.length_drop _ _
          have h3 : (s.drop (s.takeWhile isSpaceChar).length).length = 3 + r2.length := by
            rw [hdrop]; simp [List.length_cons]; omega
          have htw : (s.takeWhile isSpaceChar).length ≤ s.length :=
            takeWhile_length_le _ _
          have htw2 : (r2.takeWhile isSpaceChar).length ≤ r2.length :=
            takeWhile_length_le _ _
          have hlen2 : (s.drop k).length = s.length - k := List.length_drop _ _
          omega
      · exact absurd h (by simp)
    · exact absurd h (by simp)

/-- One step of the `AND`-split scan, parametrised over the recursive
continuation: at a separator match, emit the accumulated segment and resume
after the separator; otherwise advance one character. -/
def splitAndGo (recur : List Char → List Char → List (List Char) → List (List Char))
    (s acc : List Char) (out : List (List Char)) : List (List Char) :=
  match matchAndSep s, s with
  | some k, s2 => recur (s2.drop k) [] (acc.reverse :: out)
  | none, [] => (acc.reverse :: out).reverse
  | none, c :: rest => recur rest (c :: acc) out

/-- Worker for the `AND`-split: scan left to right, emitting a segment at
each separator match.  Segments come out in order.  The recursion is driven
by a fuel counter so that the definition reduces by kernel evaluation; every
recursive call shortens the string, so any fuel of at least its length gives
the scan's fixpoint (`splitAndFuel_fuel_irrelevant` below), and the
fuel-zero branch coincides with the empty-string branch, the only state
reachable with zero fuel. -/
def splitAndFuel : Nat → List Char → List Char → List (List Char) →
    List (List Char)
  | 0, _, acc, out => (acc.reverse :: out).reverse
  | fuel + 1, s, acc, out => splitAndGo (splitAndFuel fuel) s acc out

theorem splitAndFuel_fuel_irrelevant : ∀ (n m : Nat) (s acc : List Char)
    (out : List (List Char)), s.length ≤ n → s.length ≤ m →
    splitAndFuel n s acc out = splitAndFuel m s acc out := by
  intro n
  induction n with
  | zero =>
    intro m s acc out hn _
    have hs : s = [] := List.eq_nil_of_length_eq_zero (Nat.le_zero.mp hn)
    subst hs
    cases m with
    | zero => rfl
    | succ m2 => simp [splitAndFuel, splitAndGo, matchAndSep]
  | succ n2 ih =>
    intro m s acc out hn hm
    cases m with
    | zero =>
      have hs : s = [] := List.eq_nil_of_length_eq_zero (Nat.le_zero.mp hm)
      subst hs
      simp [splitAndFuel, splitAndGo, matchAndSep]
    | succ m2 =>
      show splitAndGo (splitAndFuel n2) s acc out = splitAndGo (splitAndFuel m2) s acc out
      unfold splitAndGo
      cases hsep : matchAndSep s with
      | some k =>
        have hlt := matchAndSep_consumed_lt s k hsep
        exact ih m2 (s.drop k) [] (acc.reverse :: out) (by omega) (by omega)
      | none =>
        cases s with
        | nil => rfl
        | cons c rest =>
          simp only [List.length_cons] at hn hm
          exact ih m2 rest (c :: acc) out (by omega) (by omega)

/-- `QueryParser.split_conditions`: split on `\s+AND\s+` (case-insensitive)
and strip each resulting segment. -/
def split_conditions (s : List Char) : List (List Char) :=
  (splitAndFuel s.length s [] []).map pyStrip

/-- Python `str.split("AND")` (case-sensitive substring split), used by the
older `query_vessels`. -/
def splitANDSub : List Char → List Char → List (List Char) → List (List Char)
  | 'A' :: 'N' :: 'D' :: rest, acc, out => splitANDSub rest [] (acc.reverse :: out)
  | c :: rest, acc, out => splitANDSub rest (c :: acc) out
  | [], acc, out => (acc.reverse :: out).reverse

/-!  Values, records, operators, errors. -/

instance {ε α : Type} [DecidableEq ε] [DecidableEq α] : DecidableEq (Except ε α) :=
  fun x y =>
    match x, y with
    | .ok a, .ok b =>
      if h : a = b then .isTrue (by rw [h]) else .isFalse (by simp [h])
    | .error a, .error b =>
      if h : a = b then .isTrue (by rw [h]) else .isFalse (by simp [h])
    | .ok _, .error _ => .isFalse (by simp)
    | .error _, .ok _ => .isFalse (by simp)

/-- A scalar value: a Python number or string (the record data model and the
result type of `parse_value`). -/
inductive Value where
  | num (n : PyNum)
  | str (s : List Char)
deriving DecidableEq, Repr

/-- A record: a flat mapping from field names to scalar values. -/
abbrev Record := List (List Char × Value)

/-- The supported operator set. -/
inductive Op where
  | eq | ne | lt | gt | le | ge
deriving DecidableEq, Repr

/-- Operator token to `Op` (the keys of `SUPPORTED_OPERATORS`). -/
def opOfChars : List Char → Option Op
  | ['='] => some .eq
  | ['!', '='] => some .ne
  | ['<'] => some .lt
  | ['>'] => some .gt
  | ['<', '='] => some .le
  | ['>', '='] => some .ge
  | _ => none

/-- Raised Python exceptions.  `notWhere`, `noConditions`,
`invalidCondition` and `unsupportedOp` are the `ValueError`s of the parsers
(the first two are the spec's `InvalidQuery`, the last two its
`InvalidCondition`); `typeErr` is the `TypeError` a cross-type ordering
comparison raises; `wrapped` is the `ValueError` re-raised by
`Database.query` around a caught `ValueError`. -/
inductive QErr where
  | notWhere
  | noConditions
  | invalidCondition (s : List Char)
  | unsupportedOp
  | typeErr
  | wrapped (e : QErr)
deriving DecidableEq, Repr

/-- The spec's `InvalidQuery` class of errors. -/
def isInvalidQuery : QErr → Bool
  | .notWhere => true
  | .noConditions => true
  | _ => false

/-- The quote-stripping test of `parse_value`:
`value.startswith(("'", '"', "‘")) and value.endswith(("'", '"', "’"))`.
The opening and closing characters are tested independently — they are not
required to form a matching pair. -/
def isQuoteWrapped (v : List Char) : Bool :=
  (match v with | c :: _ => isOpenQuote c | [] => false) &&
  (match v.getLast? with | some c => isCloseQuote c | none => false)

/-- `QueryParser.parse_value` (also the inline value handling of
`old_main.parse_condition`, which is textually identical): strip surrounding
quotes when the token starts with an opening quote character and ends with a
closing quote character (`value[1:-1]`), otherwise try `float(value)` and
fall back to the raw string. -/
def parse_value (v : List Char) : Value :=
  if isQuoteWrapped v then .str ((v.drop 1).dropLast)
  else
    match pyFloat v with
    | some n => .num n
    | none => .str v

/-- `x OP y` for two Python numbers (`>` is Python's `x > y`, etc.). -/
def applyOpNum (op : Op) (x y : PyNum) : Bool :=
  match op with
  | .eq => pyNumEq x y
  | .ne => !pyNumEq x y
  | .lt => pyNumLt x y
  | .gt => pyNumLt y x
  | .le => pyNumLe x y
  | .ge => pyNumLe y x

/-- Lexicographic (code-point) `<` on Python strings. -/
def strLt : List Char → List Char → Bool
  | [], [] => false
  | [], _ :: _ => true
  | _ :: _, [] => false
  | c :: s, d :: t => if c = d then strLt s t else decide (c < d)

/-- `x OP y` for two Python strings. -/
def applyOpStr (op : Op) (x y : List Char) : Bool :=
  match op with
  | .eq => x = y
  | .ne => !(x = y : Bool)
  | .lt => strLt x y
  | .gt => strLt y x
  | .le => strLt x y || x = y
  | .ge => strLt y x || x = y

/-- `SUPPORTED_OPERATORS[operator](record_value, literal)`: number/number and
string/string comparisons are total; between a number and a string, Python's
`==` is `False` and `!=` is `True`, while the ordering operators raise
`TypeError`. -/
def compareValues (op : Op) (recordValue literal : Value) : Except QErr Bool :=
  match recordValue, literal with
  | .num a, .num b => .ok (applyOpNum op a b)
  | .str a, .str b => .ok (applyOpStr op a b)
  | _, _ =>
    match op with
    | .eq => .ok false
    | .ne => .ok true
    | _ => .error .typeErr

/-- `QueryParser.evaluate_condition` (textually identical logic in
`old_main.evaluate_condition`): absent field is `False`; a numeric literal
against a string record value coerces the record side with `float(...)`,
returning `False` when that fails; then the operator is applied. -/
def evaluate_condition (record : Record) (field : List Char) (op : Op)
    (value : Value) : Except QErr Bool :=
  match record.lookup field with
  | none => .ok false
  | some recordValue =>
    match value, recordValue with
    | .num _, .str s =>
      match pyFloat s with
      | some n => compareValues op (.num n) value
      | none => .ok false
    | _, _ => compareValues op recordValue value

/-- `QueryParser.evaluate_record`: `all(...)` over the conditions with
Python's generator short-circuiting (a raised exception propagates only if
reached). -/
def evaluate_record (record : Record) :
    List (List Char × Op × Value) → Except QErr Bool
  | [] => .ok true
  | (f, op, v) :: rest =>
    match evaluate_condition record f op v with
    | .error e => .error e
    | .ok false => .ok false
    | .ok true => evaluate_record record rest

/-- `QueryParser.parse_condition` (and `old_main.parse_condition`, whose
body is the same except that the operator-membership check there happens as
the dictionary lookup in `evaluate_condition`; the regex only ever produces
the six supported operator tokens, so the check can never fire in either). -/
def parse_condition (s : List Char) : Except QErr (List Char × Op × Value) :=
  match matchCond (pyStrip s) with
  | none => .error (.invalidCondition s)
  | some (f, opc, v) =>
    match opOfChars opc with
    | some op => .ok (f, op, parse_value v)
    | none => .error .unsupportedOp

/-- Fail-fast left-to-right parse of each split segment (the list
comprehension in `parse_query`). -/
def parseConditionList : List (List Char) → Except QErr (List (List Char × Op × Value))
  | [] => .ok []
  | c :: rest =>
    match parse_condition c with
    | .error e => .error e
    | .ok cond =>
      match parseConditionList rest with
      | .error e => .error e
      | .ok conds => .ok (cond :: conds)

/-- The `WHERE` keyword. -/
def kwWHERE : List Char := ("WHERE").data

/-- `QueryParser.parse_query`: keyword check on the stripped, uppercased
input, but the keyword is then removed by slicing `query[5:]` from the
original string. -/
def parse_query (q : List Char) : Except QErr (List (List Char × Op × Value)) :=
  if !(startsWithChars (toUpperChars (pyStrip q)) kwWHERE) then .error .notWhere
  else
    let conditionsStr := pyStrip (q.drop 5)
    if conditionsStr.isEmpty then .error .noConditions
    else parseConditionList (split_conditions conditionsStr)

/-!  `Database` (src/inmemorydb/database.py). -/

/-- The in-memory database: its only state is the record list. -/
structure Database where
  data : List Record
deriving DecidableEq, Repr

/-- The filtering list comprehension of `Database.query` with Python
evaluation order: records are evaluated left to right and a raised exception
propagates. -/
def filterRecords (records : List Record)
    (conds : List (List Char × Op × Value)) : Except QErr (List Record) :=
  match records with
  | [] => .ok []
  | r :: rest =>
    match evaluate_record r conds with
    | .error e => .error e
    | .ok b =>
      match filterRecords rest conds with
      | .error e => .error e
      | .ok l => .ok (if b then r :: l else l)

/-- The `except ValueError` handler of `Database.query`: a `ValueError` is
re-raised wrapped; a `TypeError` from evaluation is not caught. -/
def wrapValueError : QErr → QErr
  | .typeErr => .typeErr
  | e => .wrapped e

/-- `Database.query`, with the receiver's state passed explicitly: the
method reads `self.data` and never assigns to it, so the state component of
the result is the incoming state. -/
def Database.query (db : Database) (q : List Char) :
    Except QErr (List Record) × Database :=
  (match parse_query q with
   | .ok conds =>
     match filterRecords db.data conds with
     | .ok rs => .ok rs
     | .error e => .error (wrapValueError e)
   | .error e => .error (wrapValueError e), db)

/-!  The older free-function pipeline (src/old_main.py). -/

/-- Per-vessel inner loop of `query_vessels`: each condition segment is
parsed (inside the loop) and evaluated, breaking on the first `False`. -/
def matchesAll (vessel : Record) : List (List Char) → Except QErr Bool
  | [] => .ok true
  | c :: rest =>
    match parse_condition c with
    | .error e => .error e
    | .ok (f, op, v) =>
      match evaluate_condition vessel f op v with
      | .error e => .error e
      | .ok false => .ok false
      | .ok true => matchesAll vessel rest

/-- Outer loop of `query_vessels`: collect matching vessels in order. -/
def queryVesselsLoop (vessels : List Record) (conds : List (List Char)) :
    Except QErr (List Record) :=
  match vessels with
  | [] => .ok []
  | v :: rest =>
    match matchesAll v conds with
    | .error e => .error e
    | .ok b =>
      match queryVesselsLoop rest conds with
      | .error e => .error e
      | .ok l => .ok (if b then v :: l else l)

/-- `old_main.query_vessels`: case-sensitive `startswith("WHERE")` with no
stripping, then a case-sensitive substring split on `"AND"`. -/
def query_vessels (vessels : List Record) (q : List Char) :
    Except QErr (List Record) :=
  if !(startsWithChars q kwWHERE) then .error .notWhere
  else queryVesselsLoop vessels (splitANDSub (pyStrip (q.drop 5)) [] [])

/-!  Concrete data shared by the claim theorems below. -/

/-- A one-field record `{a: 1}`. -/
def recA : Record := [(("a").data, .num (.fin ⟨1, 0⟩))]

/-- A two-field record `{a: 1, b: 2}`. -/
def recAB : Record :=
  [(("a").data, .num (.fin ⟨1, 0⟩)), (("b").data, .num (.fin ⟨2, 0⟩))]

/-- Ordering operators (the operators other than `=` and `!=`). -/
def isOrderingOp : Op → Bool
  | .eq => false
  | .ne => false
  | _ => true

/-!  Claim theorems. -/

/-- C4, counterexample.  The claim says `parse_query` on `"  WHERE a = 1"`
yields the same single condition as on `"WHERE a = 1"`.  It does not: the
keyword check strips the input, but the keyword is removed by slicing
`query[5:]` from the unstripped input, leaving `"RE a = 1"`, which fails
condition parsing, while the unpadded query parses to one condition. -/
theorem C4_counterexample :
    parse_query (("  WHERE a = 1").data) =
      .error (.invalidCondition (("RE a = 1").data)) ∧
    parse_query (("WHERE a = 1").data) =
      .ok [(("a").data, .eq, .num (.fin ⟨1, 0⟩))] ∧
    parse_query (("  WHERE a = 1").data) ≠ parse_query (("WHERE a = 1").data) := by
  refine ⟨by decide, by decide, by decide⟩

/-- C4 (amended): leading whitespace is trimmed only for recognizing the
`WHERE` keyword, not before removing it — removal always slices the first
five characters of the original string.  So `"WHERE a = 1"` parses to the
single condition `(a, =, 1.0)`, while `"  WHERE a = 1"` passes the keyword
check (its stripped uppercase form starts with `WHERE`) and then fails with
an invalid-condition error on the mangled remainder `"RE a = 1"`. -/
theorem C4_amended_behavior :
    startsWithChars (toUpperChars (pyStrip (("  WHERE a = 1").data))) kwWHERE = true ∧
    parse_query (("  WHERE a = 1").data) =
      .error (.invalidCondition (("RE a = 1").data)) ∧
    parse_query (("WHERE a = 1").data) =
      .ok [(("a").data, .eq, .num (.fin ⟨1, 0⟩))] := by
  refine ⟨by decide, by decide, by decide⟩

/-- C5: the two pipelines are not behaviorally equivalent, and they differ
exactly in the case-sensitivity of the `WHERE` keyword and of
`AND`-splitting.  On `"where a = 1"` the old free-function pipeline raises
(case-sensitive `startswith("WHERE")`), while the class-based pipeline
returns the matching record; on `"WHERE a = 1 and b = 2"` the old pipeline
does not split on lowercase `and` (so the whole tail becomes one unmatched
string literal and nothing matches), while the new pipeline splits
case-insensitively and returns the record satisfying both conditions. -/
theorem C5_pipelines_differ :
    (query_vessels [recA] (("where a = 1").data) = .error .notWhere ∧
     (Database.query ⟨[recA]⟩ (("where a = 1").data)).1 = .ok [recA]) ∧
    (query_vessels [recAB] (("WHERE a = 1 and b = 2").data) = .ok [] ∧
     (Database.query ⟨[recAB]⟩ (("WHERE a = 1 and b = 2").data)).1 = .ok [recAB]) := by
  refine ⟨⟨by decide, by decide⟩, ⟨by decide, by decide⟩⟩

/-- C9, counterexample.  The claim says every input that does not start with
the `WHERE` keyword (case-insensitive) fails with `InvalidQuery`.  The input
`"  WHEREa=1"` does not start with `WHERE` even case-insensitively (it
starts with spaces, as the first conjunct records on the uppercased,
unstripped input), yet `parse_query` does not fail at all: the stripped copy
used by the keyword check starts with `WHERE`, and slicing `query[5:]` from
the original turns the input into the well-formed condition `"REa=1"`. -/
theorem C9_counterexample :
    startsWithChars (toUpperChars (("  WHEREa=1").data)) kwWHERE = false ∧
    parse_query (("  WHEREa=1").data) =
      .ok [(("REa").data, .eq, .num (.fin ⟨1, 0⟩))] := by
  refine ⟨by decide, by decide⟩

/-- C9 (amended): for every input whose whitespace-stripped form does not
start with `WHERE` (case-insensitive), `parse_query` fails with the
`InvalidQuery` error `notWhere`; and `parse_query("WHERE")` and
`parse_query("WHERE   ")` fail with the `InvalidQuery` error
`noConditions` (empty predicate list). -/
theorem C9_amended (q : List Char)
    (h : startsWithChars (toUpperChars (pyStrip q)) kwWHERE = false) :
    (parse_query q = .error .notWhere ∧ isInvalidQuery .notWhere = true) ∧
    (parse_query (("WHERE").data) = .error .noConditions ∧
     parse_query (("WHERE   ").data) = .error .noConditions ∧
     isInvalidQuery .noConditions = true) := by
  refine ⟨⟨?_, by decide⟩, by decide, by decide, by decide⟩
  unfold parse_query
  rw [h]
  rfl

/-- Witness for `C9_amended` at the malformed input `"INVALID QUERY"`. -/
theorem C9_amended_witness :
    parse_query (("INVALID QUERY").data) = .error .notWhere :=
  ((C9_amended (("INVALID QUERY").data) (by decide)).1).1

/-- C10: `Database.query` never modifies the stored record list — the state
component of the result is the incoming state, for every database and every
query string — and on the malformed query `"INVALID QUERY"` it raises the
re-wrapped `InvalidQuery` (`ValueError`) without returning records. -/
theorem C10_query_frame :
    (∀ (db : Database) (q : List Char), (Database.query db q).2 = db) ∧
    (∀ db : Database,
      (Database.query db (("INVALID QUERY").data)).1 = .error (.wrapped .notWhere)) ∧
    isInvalidQuery .notWhere = true := by
  refine ⟨fun db q => rfl, fun db => ?_, by decide⟩
  show (match parse_query (("INVALID QUERY").data) with
        | .ok conds =>
          match filterRecords db.data conds with
          | .ok rs => Except.ok rs
          | .error e => Except.error (wrapValueError e)
        | .error e => Except.error (wrapValueError e)) = .error (.wrapped .notWhere)
  rw [show parse_query (("INVALID QUERY").data) = .error .notWhere from by decide]
  rfl

/-- C1, counterexample.  The claim says `evaluate_condition` always returns
a boolean, and in particular that an ordering comparison between a string
literal and a numeric record value resolves to `false`.  On the record
`{a: 5}` the condition `a < "x"` instead raises `TypeError`: the coercion
rule only fires when the literal is numeric, so `5 < "x"` reaches the host
comparison, which Python refuses. -/
theorem C1_counterexample :
    evaluate_condition [(("a").data, .num (.fin ⟨5, 0⟩))] (("a").data) .lt
      (.str (("x").data)) = .error .typeErr := by
  decide

/-- C1 (amended): `evaluate_condition` returns a boolean for every record,
field, operator and literal — unmatchable conditions resolve to `false` —
except in exactly one case: an ordering operator applied to a string
literal when the record's value for the field is numeric, which raises
`TypeError`. -/
theorem C1_amended (record : Record) (field : List Char) (op : Op) (value : Value) :
    (∃ b, evaluate_condition record field op value = .ok b) ∨
    (isOrderingOp op = true ∧ (∃ s, value = .str s) ∧
     (∃ n, record.lookup field = some (.num n)) ∧
     evaluate_condition record field op value = .error .typeErr) := by
  cases hl : record.lookup field with
  | none => exact .inl ⟨false, by simp [evaluate_condition, hl]⟩
  | some rv =>
    cases value with
    | num n =>
      cases rv with
      | num m =>
        exact .inl ⟨applyOpNum op m n, by simp [evaluate_condition, hl, compareValues]⟩
      | str s =>
        cases hp : pyFloat s with
        | none => exact .inl ⟨false, by simp [evaluate_condition, hl, hp]⟩
        | some n2 =>
          exact .inl ⟨applyOpNum op n2 n, by simp [evaluate_condition, hl, hp, compareValues]⟩
    | str s =>
      cases rv with
      | str t =>
        exact .inl ⟨applyOpStr op t s, by simp [evaluate_condition, hl, compareValues]⟩
      | num m =>
        cases op with
        | eq => exact .inl ⟨false, by simp [evaluate_condition, hl, compareValues]⟩
        | ne => exact .inl ⟨true, by simp [evaluate_condition, hl, compareValues]⟩
        | lt => exact .inr ⟨rfl, ⟨s, rfl⟩, ⟨m, rfl⟩, by simp [evaluate_condition, hl, compareValues]⟩
        | gt => exact .inr ⟨rfl, ⟨s, rfl⟩, ⟨m, rfl⟩, by simp [evaluate_condition, hl, compareValues]⟩
        | le => exact .inr ⟨rfl, ⟨s, rfl⟩, ⟨m, rfl⟩, by simp [evaluate_condition, hl, compareValues]⟩
        | ge => exact .inr ⟨rfl, ⟨s, rfl⟩, ⟨m, rfl⟩, by simp [evaluate_condition, hl, compareValues]⟩

/-- C2: the non-match policy of single-condition evaluation.  For every
operator (including `!=`), a condition on a field absent from the record
evaluates to `false`, and a condition with a numeric literal against a
record string that `float(...)` rejects also evaluates to `false` with no
comparison attempted. -/
theorem C2_nonmatch (record : Record) (field : List Char) (op : Op) (value : Value) :
    (record.lookup field = none →
      evaluate_condition record field op value = .ok false) ∧
    (∀ n s, value = .num n → record.lookup field = some (.str s) → pyFloat s = none →
      evaluate_condition record field op value = .ok false) := by
  constructor
  · intro h
    simp [evaluate_condition, h]
  · intro n s hv hl hp
    subst hv
    simp [evaluate_condition, hl, hp]

/-- Witness for `C2_nonmatch`: the field `zzz` is absent from `{a: 1}`, and
`{a: "abc"}` has a non-numeric string where the literal `5` is numeric; both
`!=` conditions evaluate to `false`. -/
theorem C2_nonmatch_witness :
    evaluate_condition recA (("zzz").data) .ne (.num (.fin ⟨5, 0⟩)) = .ok false ∧
    evaluate_condition [(("a").data, .str (("abc").data))] (("a").data) .ne
      (.num (.fin ⟨5, 0⟩)) = .ok false :=
  ⟨(C2_nonmatch recA (("zzz").data) .ne (.num (.fin ⟨5, 0⟩))).1 (by decide),
   (C2_nonmatch [(("a").data, .str (("abc").data))] (("a").data) .ne
      (.num (.fin ⟨5, 0⟩))).2 (.fin ⟨5, 0⟩) (("abc").data) rfl (by decide) (by decide)⟩

/-- `startsWithChars (x ++ y) x` always holds: a list is a prefix of itself
followed by anything. -/
theorem startsWithChars_append (x y : List Char) :
    startsWithChars (x ++ y) x = true := by
  induction x with
  | nil => cases y <;> rfl
  | cons c t ih => simp [startsWithChars, ih]

/-- A list starts with `x` whenever it is `x` followed by anything. -/
theorem startsWithChars_of_append (s x y : List Char) (h : s = x ++ y) :
    startsWithChars s x = true := by
  subst h
  exact startsWithChars_append x y

/-- A bare value group is a prefix of the text it was matched against. -/
theorem tryBareValue_starts (s v : List Char) (h : tryBareValue s = some v) :
    startsWithChars s v = true := by
  have hsplit : s.takeWhile (fun c => !isPlainQuote c) ++
      s.dropWhile (fun c => !isPlainQuote c) = s :=
    List.takeWhile_append_dropWhile _ _
  unfold tryBareValue at h
  by_cases hrun : (s.takeWhile fun c => !isPlainQuote c).isEmpty
  · rw [if_pos hrun] at h
    exact absurd h (by simp)
  · rw [if_neg hrun] at h
    cases hdrop : s.dropWhile (fun c => !isPlainQuote c) with
    | nil =>
      rw [hdrop] at h hsplit
      rw [List.append_nil] at hsplit
      injection h with h2
      subst h2
      exact startsWithChars_of_append s _ [] (by rw [List.append_nil, hsplit])
    | cons c tail =>
      rw [hdrop] at h hsplit
      simp only [] at h
      by_cases hc : isCloseQuote c
      · rw [if_pos hc] at h
        injection h with h2
        subst h2
        refine startsWithChars_of_append s _ tail ?_
        conv_lhs => rw [← hsplit]
        simp
      · rw [if_neg hc] at h
        injection h with h2
        subst h2
        exact startsWithChars_of_append s _ (c :: tail) hsplit.symm

/-- The regex value group is a prefix of the text after the operator (it is
not always the entire remainder: the run stops at the first plain quote). -/
theorem tryValue_starts (s v : List Char) (h : tryValue s = some v) :
    startsWithChars s v = true := by
  cases s with
  | nil => exact absurd h (by simp [tryValue])
  | cons c rest =>
    simp only [tryValue] at h
    by_cases hoq : isOpenQuote c
    · rw [if_pos hoq] at h
      by_cases hrun : (rest.takeWhile fun d => !isPlainQuote d).isEmpty
      · rw [if_pos hrun] at h
        exact tryBareValue_starts _ _ h
      · rw [if_neg hrun] at h
        have hsplit : rest.takeWhile (fun d => !isPlainQuote d) ++
            rest.dropWhile (fun d => !isPlainQuote d) = rest :=
          List.takeWhile_append_dropWhile _ _
        cases hdrop : rest.dropWhile (fun d => !isPlainQuote d) with
        | nil =>
          rw [hdrop] at h hsplit
          rw [List.append_nil] at hsplit
          injection h with h2
          subst h2
          exact startsWithChars_of_append _ _ [] (by rw [List.append_nil, hsplit])
        | cons d tail =>
          rw [hdrop] at h hsplit
          simp only [] at h
          by_cases hd : isCloseQuote d
          · rw [if_pos hd] at h
            injection h with h2
            subst h2
            refine startsWithChars_of_append _ _ tail ?_
            conv_lhs => rw [← hsplit]
            simp
          · rw [if_neg hd] at h
            injection h with h2
            subst h2
            refine startsWithChars_of_append _ _ (d :: tail) ?_
            conv_lhs => rw [← hsplit]
            simp
    · rw [if_neg hoq] at h
      exact tryBareValue_starts _ _ h

/-- C3, counterexample.  The claim says the value is the entire remainder
after the operator, with quotes stripped exactly when it is wrapped in a
single matching pair.  For the predicate `a = 'abc"x` the remainder is
`'abc"x`, which is not wrapped in a matching pair (it does not even end in
a quote), so under the claim it would be taken verbatim; the code instead
matches only the prefix `'abc"`, drops the trailing `x`, and strips the
mismatched `'`/`"` pair, yielding the string `abc`. -/
theorem C3_counterexample :
    parse_condition (("a = 'abc\"x").data) =
      .ok (("a").data, .eq, .str (("abc").data)) ∧
    parse_condition (("a = 'abc\"x").data) ≠
      .ok (("a").data, .eq, .str (("'abc\"x").data)) := by
  refine ⟨by decide, by decide⟩

/-- C3 (amended): the value group is a prefix of the remainder after the
operator (the longest match of optional-opening-quote, nonempty run of
non-plain-quote characters, optional-closing-quote — not always the whole
remainder), and the surrounding characters are stripped exactly when the
token starts with any opening quote character and ends with any closing
quote character, matching or not; the stripped inner text (`value[1:-1]`),
or for an unwrapped token that fails numeric conversion the raw text, is
taken verbatim. -/
theorem C3_amended (rem v : List Char) :
    (tryValue rem = some v → startsWithChars rem v = true) ∧
    (isQuoteWrapped v = true → parse_value v = .str ((v.drop 1).dropLast)) ∧
    (isQuoteWrapped v = false → pyFloat v = none → parse_value v = .str v) := by
  refine ⟨tryValue_starts rem v, ?_, ?_⟩
  · intro h
    simp [parse_value, h]
  · intro h hp
    simp [parse_value, h, hp]

/-- Witness for `C3_amended` at the remainder `'abc"x`: its value group
`'abc"` is a proper prefix, and stripping the mismatched pair leaves
`abc`. -/
theorem C3_amended_witness :
    startsWithChars (("'abc\"x").data) (("'abc\"").data) = true ∧
    parse_value (("'abc\"").data) = .str (((("'abc\"").data).drop 1).dropLast) ∧
    (((("'abc\"").data).drop 1).dropLast) = ("abc").data :=
  ⟨(C3_amended (("'abc\"x").data) (("'abc\"").data)).1 (by decide),
   (C3_amended [] (("'abc\"").data)).2.1 (by decide), by decide⟩

/-- The claim's notion of quoting: wrapped in a single matching pair
(`'…'`, `"…"`, or `‘…’`) of length at least two. -/
def wrappedInMatchingPair (v : List Char) : Bool :=
  2 ≤ v.length &&
  (match v.head?, v.getLast? with
   | some c, some d =>
     (c = '\'' && d = '\'') || (c = '"' && d = '"') || (c = '‘' && d = '’')
   | _, _ => false)

/-- A token wrapped in a matching pair passes `parse_value`'s (laxer)
quote-stripping test. -/
theorem isQuoteWrapped_of_matching (v : List Char)
    (h : wrappedInMatchingPair v = true) : isQuoteWrapped v = true := by
  cases v with
  | nil => exact absurd h (by simp [wrappedInMatchingPair])
  | cons c t =>
    cases hgl : (c :: t).getLast? with
    | none => simp [List.getLast?_eq_getLast] at hgl
    | some d =>
      simp only [wrappedInMatchingPair, List.head?_cons, hgl, Bool.and_eq_true,
        Bool.or_eq_true, decide_eq_true_eq] at h
      obtain ⟨_, hpair⟩ := h
      simp only [isQuoteWrapped, hgl, Bool.and_eq_true]
      constructor
      · have hc : c = '\'' ∨ c = '"' ∨ c = '‘' := by tauto
        rcases hc with rfl | rfl | rfl <;> decide
      · have hd : d = '\'' ∨ d = '"' ∨ d = '’' := by tauto
        rcases hd with rfl | rfl | rfl <;> decide

/-- C7: value typing.  A literal wrapped in a matching quote pair always
parses to a string, whatever its contents; a bare token (one failing the
quote-stripping test) is tried as `float(...)` first and kept as a string
only when that fails; and `parse_value("'123'")` is the string `"123"`,
not the number `123`. -/
theorem C7_value_typing (v : List Char) :
    (wrappedInMatchingPair v = true → ∃ s, parse_value v = .str s) ∧
    (isQuoteWrapped v = false →
      parse_value v =
        (match pyFloat v with | some n => .num n | none => .str v)) ∧
    parse_value (("'123'").data) = .str (("123").data) := by
  refine ⟨?_, ?_, by decide⟩
  · intro h
    exact ⟨(v.drop 1).dropLast, by simp [parse_value, isQuoteWrapped_of_matching v h]⟩
  · intro h
    simp [parse_value, h]

/-- Witness for `C7_value_typing`: `'ab'` is matching-pair quoted and parses
to a string; `12` is bare and parses via `float`. -/
theorem C7_value_typing_witness :
    (∃ s, parse_value (("'ab'").data) = .str s) ∧
    parse_value (("12").data) =
      (match pyFloat (("12").data) with
       | some n => .num n
       | none => .str (("12").data)) :=
  ⟨(C7_value_typing (("'ab'").data)).1 (by decide),
   (C7_value_typing (("12").data)).2.1 (by decide)⟩

/-- A condition triple, evaluated (`evaluate_condition` on the components of
a parsed `(field, operator, value)` tuple). -/
def evalCondAt (record : Record) (c : List Char × Op × Value) : Except QErr Bool :=
  evaluate_condition record c.1 c.2.1 c.2.2

/-- C8, counterexample.  The claim says the result of `evaluate_record` is
unchanged under every permutation of the condition list.  On `{a:1, b:2}`
with conditions `[a = 999, b < "x"]` the first condition is false and
short-circuiting returns `false` before the second is reached; the reversed
list evaluates `b < "x"` first, which raises `TypeError` — a different
outcome. -/
theorem C8_counterexample :
    evaluate_record recAB
      [(("a").data, .eq, .num (.fin ⟨999, 0⟩)),
       (("b").data, .lt, .str (("x").data))] = .ok false ∧
    evaluate_record recAB
      [(("b").data, .lt, .str (("x").data)),
       (("a").data, .eq, .num (.fin ⟨999, 0⟩))] = .error .typeErr := by
  refine ⟨by decide, by decide⟩

/-- When every condition in the list evaluates without raising,
`evaluate_record` is the conjunction of the individual results. -/
theorem evaluate_record_all_ok (record : Record)
    (conds : List (List Char × Op × Value))
    (h : ∀ c ∈ conds, ∃ b, evalCondAt record c = .ok b) :
    evaluate_record record conds =
      .ok (decide (∀ c ∈ conds, evalCondAt record c = .ok true)) := by
  induction conds with
  | nil => simp [evaluate_record]
  | cons c rest ih =>
    obtain ⟨b, hb⟩ := h c (List.mem_cons_self c rest)
    have hrest : ∀ c2 ∈ rest, ∃ b2, evalCondAt record c2 = .ok b2 :=
      fun c2 hc2 => h c2 (List.mem_cons_of_mem c hc2)
    obtain ⟨f, op, v⟩ := c
    simp only [evalCondAt] at hb
    cases b with
    | false =>
      have hP : ¬ ∀ c2 ∈ (f, op, v) :: rest, evalCondAt record c2 = .ok true := by
        intro hall
        have h2 := hall (f, op, v) (List.mem_cons_self _ _)
        simp only [evalCondAt] at h2
        rw [hb] at h2
        exact absurd h2 (by simp)
      simp only [evaluate_record, hb]
      rw [decide_eq_false hP]
    | true =>
      simp only [evaluate_record, hb]
      rw [ih hrest]
      congr 1
      rw [decide_eq_decide]
      simp only [List.forall_mem_cons]
      constructor
      · intro hr
        exact ⟨by simp [evalCondAt, hb], hr⟩
      · intro hcons
        exact hcons.2

/-- C8 (amended): when every condition of the list evaluates without
raising, `evaluate_record` returns true exactly when every condition holds
(short-circuiting on the first false), and the boolean result is unchanged
under every permutation of the list.  (When a condition raises, the
evaluation order decides whether the error surfaces — see the
counterexample.) -/
theorem C8_amended (record : Record)
    (conds conds2 : List (List Char × Op × Value))
    (h : ∀ c ∈ conds, ∃ b, evalCondAt record c = .ok b)
    (hp : List.Perm conds conds2) :
    evaluate_record record conds =
      .ok (decide (∀ c ∈ conds, evalCondAt record c = .ok true)) ∧
    evaluate_record record conds2 = evaluate_record record conds := by
  have h2 : ∀ c ∈ conds2, ∃ b, evalCondAt record c = .ok b :=
    fun c hc => h c (hp.mem_iff.mpr hc)
  refine ⟨evaluate_record_all_ok record conds h, ?_⟩
  rw [evaluate_record_all_ok record conds h, evaluate_record_all_ok record conds2 h2]
  congr 1
  rw [decide_eq_decide]
  constructor
  · intro hall c hc
    exact hall c (hp.mem_iff.mp hc)
  · intro hall c hc
    exact hall c (hp.mem_iff.mpr hc)

/-- The condition list `[a = 1, b = 2]`. -/
def condsAB : List (List Char × Op × Value) :=
  [(("a").data, .eq, .num (.fin ⟨1, 0⟩)), (("b").data, .eq, .num (.fin ⟨2, 0⟩))]

/-- The condition list `[b = 2, a = 1]`. -/
def condsBA : List (List Char × Op × Value) :=
  [(("b").data, .eq, .num (.fin ⟨2, 0⟩)), (("a").data, .eq, .num (.fin ⟨1, 0⟩))]

/-- Witness for `C8_amended`: on `{a:1, b:2}` the condition lists
`[a = 1, b = 2]` and `[b = 2, a = 1]` both evaluate without raising and
agree. -/
theorem C8_amended_witness :
    evaluate_record recAB condsAB =
      .ok (decide (∀ c ∈ condsAB, evalCondAt recAB c = .ok true)) ∧
    evaluate_record recAB condsBA = evaluate_record recAB condsAB :=
  C8_amended recAB condsAB condsBA (by decide)
    (by unfold condsAB condsBA; exact List.Perm.swap _ _ _)

/-!  Infrastructure for C6: Python `float()` accepts every token of the
spec's narrow grammar (optional sign, digits, optional fractional part). -/

/-- An ASCII digit has code point between 48 and 57. -/
theorem digit_toNat_bounds (c : Char) (h : c.isDigit = true) :
    48 ≤ c.toNat ∧ c.toNat ≤ 57 := by
  simp only [Char.isDigit, Bool.and_eq_true, decide_eq_true_eq] at h
  exact ⟨UInt32.le_toNat_of_le (by decide) h.1, UInt32.toNat_le_of_le (by decide) h.2⟩

/-- `toLower` leaves a digit unchanged. -/
theorem toLower_eq_self_of_digit (c : Char) (h : c.isDigit = true) :
    c.toLower = c := by
  obtain ⟨_, h2⟩ := digit_toNat_bounds c h
  rw [Char.toLower, if_neg]
  intro hcon
  omega

/-- A digit differs from any character whose code point is outside 48–57. -/
theorem digit_ne_char (c : Char) (h : c.isDigit = true) (d : Char)
    (hd : d.toNat < 48 ∨ 57 < d.toNat) : c ≠ d := by
  obtain ⟨h1, h2⟩ := digit_toNat_bounds c h
  intro heq
  subst heq
  omega

/-- A digit is not a whitespace character. -/
theorem isSpaceChar_false_of_digit (c : Char) (h : c.isDigit = true) :
    isSpaceChar c = false := by
  have hb := digit_toNat_bounds c h
  cases hsc : isSpaceChar c with
  | false => rfl
  | true =>
    exfalso
    simp only [isSpaceChar, Bool.or_eq_true, decide_eq_true_eq, or_assoc] at hsc
    rcases hsc with rfl | rfl | rfl | rfl | rfl | rfl <;> revert hb <;> decide

/-- A digit is not an opening quote character. -/
theorem isOpenQuote_false_of_digit (c : Char) (h : c.isDigit = true) :
    isOpenQuote c = false := by
  have hb := digit_toNat_bounds c h
  cases hq : isOpenQuote c with
  | false => rfl
  | true =>
    exfalso
    simp only [isOpenQuote, Bool.or_eq_true, decide_eq_true_eq, or_assoc] at hq
    rcases hq with rfl | rfl | rfl <;> revert hb <;> decide

/-- `scanDigits` consumes a digit. -/
theorem scanDigits_cons_digit (c : Char) (t : List Char) (acc n : Nat)
    (h : c.isDigit = true) :
    scanDigits (c :: t) acc n = scanDigits t (acc * 10 + digitVal c) (n + 1) := by
  rw [scanDigits.eq_def]
  simp only []
  rw [if_pos h]

/-- `scanDigits` stops at a non-digit, non-underscore character. -/
theorem scanDigits_cons_stop (c : Char) (t : List Char) (acc n : Nat)
    (h : c.isDigit = false) (h2 : c ≠ '_') :
    scanDigits (c :: t) acc n = (acc, n, c :: t) := by
  rw [scanDigits.eq_def]
  simp only []
  rw [if_neg (by simp [h]), if_neg h2]

/-- `scanDigits` on a pure digit run followed by a stopper consumes exactly
the run. -/
theorem scanDigits_digits (ds : List Char) : ∀ (rest : List Char) (acc n : Nat),
    (∀ c ∈ ds, c.isDigit = true) →
    (∀ c, rest.head? = some c → c.isDigit = false ∧ c ≠ '_') →
    ∃ a, scanDigits (ds ++ rest) acc n = (a, n + ds.length, rest) := by
  induction ds with
  | nil =>
    intro rest acc n _ hhead
    cases rest with
    | nil => exact ⟨acc, by simp [scanDigits]⟩
    | cons c t =>
      obtain ⟨hcd, hcu⟩ := hhead c rfl
      refine ⟨acc, ?_⟩
      rw [List.nil_append, scanDigits_cons_stop c t acc n hcd hcu]
      simp
  | cons d ds2 ih =>
    intro rest acc n hds hhead
    have hd : d.isDigit = true := hds d (List.mem_cons_self _ _)
    obtain ⟨a, ha⟩ := ih rest (acc * 10 + digitVal d) (n + 1)
      (fun c hc => hds c (List.mem_cons_of_mem _ hc)) hhead
    refine ⟨a, ?_⟩
    rw [List.cons_append, scanDigits_cons_digit d (ds2 ++ rest) acc n hd, ha,
      show n + 1 + ds2.length = n + (d :: ds2).length from by
        simp only [List.length_cons]; omega]

/-- The head of a nonempty `dropWhile` result fails the predicate. -/
theorem dropWhile_head_false (p : Char → Bool) (l : List Char) (c : Char)
    (t : List Char) (h : l.dropWhile p = c :: t) : p c = false := by
  induction l with
  | nil => simp [List.dropWhile] at h
  | cons a l2 ih =>
    rw [List.dropWhile_cons] at h
    by_cases hp : p a = true
    · rw [if_pos hp] at h
      exact ih h
    · rw [if_neg hp] at h
      injection h with h1 _
      subst h1
      simpa using hp

/-- `dropWhile` is the identity when no element satisfies the predicate. -/
theorem dropWhile_eq_self_of_all_false (p : Char → Bool) (l : List Char)
    (h : ∀ c ∈ l, p c = false) : l.dropWhile p = l := by
  cases l with
  | nil => rfl
  | cons a t =>
    rw [List.dropWhile_cons, if_neg (by simp [h a (List.mem_cons_self _ _)])]

/-- Stripping a string with no whitespace characters is the identity. -/
theorem pyStrip_eq_self (v : List Char) (h : ∀ c ∈ v, isSpaceChar c = false) :
    pyStrip v = v := by
  unfold pyStrip
  rw [dropWhile_eq_self_of_all_false _ v h,
    dropWhile_eq_self_of_all_false _ v.reverse
      (fun c hc => h c (List.mem_reverse.mp hc)),
    List.reverse_reverse]

/-- All characters of the list are digits. -/
def allDigits (l : List Char) : Bool := l.all Char.isDigit

/-- The spec's narrow bare-numeric grammar, after the optional sign: one or
more digits, then optionally a dot followed by digits. -/
def specNarrowBody (r : List Char) : Bool :=
  !(r.takeWhile Char.isDigit).isEmpty &&
  (match r.dropWhile Char.isDigit with
   | [] => true
   | c :: fs => c = '.' && allDigits fs)

/-- The spec's narrow bare-numeric grammar: decimal, optionally signed, with
an optional fractional part. -/
def specNarrowNum (v : List Char) : Bool :=
  match v with
  | c :: r =>
    if c = '+' || c = '-' then specNarrowBody r else specNarrowBody (c :: r)
  | [] => specNarrowBody []

/-- Unpacking `specNarrowBody`: a nonempty digit prefix, and a remainder
that is empty or a dot followed by digits. -/
theorem specNarrowBody_parts (r : List Char) (h : specNarrowBody r = true) :
    (r.takeWhile Char.isDigit).isEmpty = false ∧
    (r.dropWhile Char.isDigit = [] ∨
     ∃ fs, r.dropWhile Char.isDigit = '.' :: fs ∧ ∀ c ∈ fs, c.isDigit = true) := by
  simp only [specNarrowBody, Bool.and_eq_true, Bool.not_eq_true'] at h
  obtain ⟨h1, h2⟩ := h
  refine ⟨h1, ?_⟩
  cases hdw : r.dropWhile Char.isDigit with
  | nil => exact .inl rfl
  | cons c fs =>
    rw [hdw] at h2
    simp only [] at h2
    rw [Bool.and_eq_true, decide_eq_true_eq] at h2
    obtain ⟨rfl, hall⟩ := h2
    exact .inr ⟨fs, rfl, fun c hc => List.all_eq_true.mp hall c hc⟩

/-- Every character of a narrow-grammar body is a digit or the dot. -/
theorem specNarrowBody_chars (r : List Char) (h : specNarrowBody r = true) :
    ∀ c ∈ r, c.isDigit = true ∨ c = '.' := by
  obtain ⟨_, hdrop⟩ := specNarrowBody_parts r h
  intro c hc
  rw [← List.takeWhile_append_dropWhile (p := Char.isDigit) (l := r)] at hc
  rcases List.mem_append.mp hc with hc1 | hc2
  · exact .inl (List.mem_takeWhile_imp hc1)
  · rcases hdrop with hnil | ⟨fs, heq, hfs⟩
    · rw [hnil] at hc2
      exact absurd hc2 (List.not_mem_nil c)
    · rw [heq] at hc2
      rcases List.mem_cons.mp hc2 with rfl | hmem
      · exact .inr rfl
      · exact .inl (hfs c hmem)

/-- A narrow-grammar body starts with a digit. -/
theorem narrowBody_head_digit (r : List Char) (h : specNarrowBody r = true) :
    ∃ d0 t, r = d0 :: t ∧ d0.isDigit = true := by
  cases r with
  | nil => exact absurd h (by decide)
  | cons a t =>
    refine ⟨a, t, rfl, ?_⟩
    by_cases ha : a.isDigit = true
    · exact ha
    · exfalso
      have htw : (a :: t).takeWhile Char.isDigit = [] := by
        rw [List.takeWhile_cons, if_neg ha]
      obtain ⟨h1, _⟩ := specNarrowBody_parts (a :: t) h
      rw [htw] at h1
      exact absurd h1 (by decide)

/-- A digit run with an optional dot-digits suffix parses as a number:
the integer-only case. -/
theorem parseNumberBody_int_only (d0 : Char) (ds : List Char)
    (hd0 : d0.isDigit = true) (hds : ∀ c ∈ ds, c.isDigit = true) :
    ∃ d, parseNumberBody (d0 :: ds) = some d := by
  obtain ⟨a, ha⟩ := scanDigits_digits ds [] (digitVal d0) 1 hds (by simp)
  rw [List.append_nil] at ha
  simp only [parseNumberBody, hd0, if_true, ha]
  rw [if_neg (by omega)]
  exact ⟨_, rfl⟩

/-- A digit run with a dot-digits suffix parses as a number. -/
theorem parseNumberBody_with_frac (d0 : Char) (ds fs : List Char)
    (hd0 : d0.isDigit = true) (hds : ∀ c ∈ ds, c.isDigit = true)
    (hfs : ∀ c ∈ fs, c.isDigit = true) :
    ∃ d, parseNumberBody (d0 :: (ds ++ '.' :: fs)) = some d := by
  obtain ⟨a, ha⟩ := scanDigits_digits ds ('.' :: fs) (digitVal d0) 1 hds
    (by
      intro c hc
      simp only [List.head?_cons, Option.some.injEq] at hc
      subst hc
      exact ⟨by decide, by decide⟩)
  simp only [parseNumberBody, hd0, if_true, ha]
  cases fs with
  | nil =>
    rw [if_neg (by omega)]
    exact ⟨_, rfl⟩
  | cons f0 fs2 =>
    have hf0 : f0.isDigit = true := hfs f0 (List.mem_cons_self _ _)
    obtain ⟨b, hb⟩ := scanDigits_digits fs2 [] (digitVal f0) 1
      (fun c hc => hfs c (List.mem_cons_of_mem _ hc)) (by simp)
    rw [List.append_nil] at hb
    simp only [hf0, if_true, hb]
    rw [if_neg (by omega)]
    exact ⟨_, rfl⟩

/-- Every narrow-grammar body parses as a number. -/
theorem parseNumberBody_of_narrowBody (r : List Char) (h : specNarrowBody r = true) :
    ∃ d, parseNumberBody r = some d := by
  have hsplit := List.takeWhile_append_dropWhile (p := Char.isDigit) (l := r)
  obtain ⟨hne, hdrop⟩ := specNarrowBody_parts r h
  cases htw : r.takeWhile Char.isDigit with
  | nil =>
    rw [htw] at hne
    exact absurd hne (by decide)
  | cons d0 ds2 =>
    have hd0 : d0.isDigit = true :=
      List.mem_takeWhile_imp (by rw [htw]; exact List.mem_cons_self _ _)
    have hds2 : ∀ c ∈ ds2, c.isDigit = true := fun c hc =>
      List.mem_takeWhile_imp (p := Char.isDigit) (l := r)
        (by rw [htw]; exact List.mem_cons_of_mem _ hc)
    rcases hdrop with hnil | ⟨fs, hfs_eq, hfs⟩
    · have hr : r = d0 :: ds2 := by
        rw [← hsplit, htw, hnil, List.append_nil]
      rw [hr]
      exact parseNumberBody_int_only d0 ds2 hd0 hds2
    · have hr : r = d0 :: (ds2 ++ '.' :: fs) := by
        rw [← hsplit, htw, hfs_eq]
        rfl
      rw [hr]
      exact parseNumberBody_with_frac d0 ds2 fs hd0 hds2 hfs

/-- `ciMatch` fails when the subject starts with a digit and the pattern
starts with a character outside the digit range. -/
theorem ciMatch_digit_head_false (c : Char) (s : List Char) (d : Char)
    (t : List Char) (hc : c.isDigit = true)
    (hd : d.toNat < 48 ∨ 57 < d.toNat) : ciMatch (c :: s) (d :: t) = false := by
  have h1 : c.toLower = c := toLower_eq_self_of_digit c hc
  have h2 : c ≠ d := digit_ne_char c hc d hd
  simp [ciMatch, h1, h2]

/-- A narrow-grammar body is neither an `inf`/`nan` spelling nor rejected by
the numeric parser, so `pyFloatSigned` returns a finite value on it. -/
theorem pyFloatSigned_of_narrowBody (neg : Bool) (r : List Char)
    (h : specNarrowBody r = true) :
    ∃ dn, pyFloatSigned neg r = some (PyNum.fin dn) := by
  obtain ⟨d0, t, rfl, hd0⟩ := narrowBody_head_digit r h
  have hinf : ciMatch (d0 :: t) (("inf").data) = false := by
    rw [show ("inf").data = 'i' :: ("nf").data from rfl]
    exact ciMatch_digit_head_false d0 t 'i' _ hd0 (by decide)
  have hinfy : ciMatch (d0 :: t) (("infinity").data) = false := by
    rw [show ("infinity").data = 'i' :: ("nfinity").data from rfl]
    exact ciMatch_digit_head_false d0 t 'i' _ hd0 (by decide)
  have hnan : ciMatch (d0 :: t) (("nan").data) = false := by
    rw [show ("nan").data = 'n' :: ("an").data from rfl]
    exact ciMatch_digit_head_false d0 t 'n' _ hd0 (by decide)
  obtain ⟨d, hd⟩ := parseNumberBody_of_narrowBody (d0 :: t) h
  refine ⟨if neg then ⟨-d.mant, d.exp10⟩ else d, ?_⟩
  simp only [pyFloatSigned, hinf, hinfy, hnan, hd, Bool.or_self, if_false]
  rfl

/-- `float()` accepts every token of the spec's narrow grammar and returns a
finite value on it. -/
theorem specNarrow_pyFloat (v : List Char) (h : specNarrowNum v = true) :
    ∃ dn, pyFloat v = some (PyNum.fin dn) := by
  cases v with
  | nil => exact absurd h (by decide)
  | cons c r =>
    by_cases hsign : c = '+' ∨ c = '-'
    · have hb : specNarrowBody r = true := by
        rcases hsign with rfl | rfl <;> simpa [specNarrowNum] using h
      have hchars : ∀ x ∈ c :: r, isSpaceChar x = false := by
        intro x hx
        rcases List.mem_cons.mp hx with rfl | hxr
        · rcases hsign with rfl | rfl <;> decide
        · rcases specNarrowBody_chars r hb x hxr with hdg | rfl
          · exact isSpaceChar_false_of_digit x hdg
          · decide
      have hstrip : pyStrip (c :: r) = c :: r := pyStrip_eq_self _ hchars
      unfold pyFloat
      rw [hstrip]
      rcases hsign with rfl | rfl
      · rw [show splitSign ('+' :: r) = (false, r) from by simp [splitSign]]
        exact pyFloatSigned_of_narrowBody false r hb
      · rw [show splitSign ('-' :: r) = (true, r) from by simp [splitSign]]
        exact pyFloatSigned_of_narrowBody true r hb
    · push_neg at hsign
      obtain ⟨h1, h2⟩ := hsign
      have hb : specNarrowBody (c :: r) = true := by
        simpa [specNarrowNum, h1, h2] using h
      have hchars : ∀ x ∈ c :: r, isSpaceChar x = false := by
        intro x hx
        rcases specNarrowBody_chars (c :: r) hb x hx with hdg | rfl
        · exact isSpaceChar_false_of_digit x hdg
        · decide
      have hstrip : pyStrip (c :: r) = c :: r := pyStrip_eq_self _ hchars
      unfold pyFloat
      rw [hstrip, show splitSign (c :: r) = (false, c :: r) from by
        simp [splitSign, h1, h2]]
      exact pyFloatSigned_of_narrowBody false (c :: r) hb

/-- A narrow-grammar token does not pass the quote-stripping test. -/
theorem specNarrow_not_quoted (v : List Char) (h : specNarrowNum v = true) :
    isQuoteWrapped v = false := by
  cases v with
  | nil => exact absurd h (by decide)
  | cons c r =>
    have hopen : isOpenQuote c = false := by
      by_cases hsign : c = '+' ∨ c = '-'
      · rcases hsign with rfl | rfl <;> decide
      · push_neg at hsign
        obtain ⟨h1, h2⟩ := hsign
        have hb : specNarrowBody (c :: r) = true := by
          simpa [specNarrowNum, h1, h2] using h
        rcases specNarrowBody_chars (c :: r) hb c (List.mem_cons_self _ _) with hdg | rfl
        · exact isOpenQuote_false_of_digit c hdg
        · decide
    simp [isQuoteWrapped, hopen]

/-- C6, counterexample.  The claim says a token with an exponent suffix is
outside the numeric grammar and kept as a string; `parse_value("1e5")` is in
fact the number `100000.0` because Python `float()` accepts exponents. -/
theorem C6_counterexample :
    parse_value (("1e5").data) = .num (.fin ⟨100000, 0⟩) ∧
    parse_value (("1e5").data) ≠ .str (("1e5").data) := by
  refine ⟨by decide, by decide⟩

/-- C6 (amended): numeric conversion of a bare token succeeds at least on
the spec's narrow grammar (optionally signed decimal with optional
fractional part) — always yielding a finite number — but also on the wider
grammar of Python `float()`, which additionally accepts exponent suffixes
(`parse_value("1e5") = 100000.0`), underscore digit separators, surrounding
whitespace and infinity/nan spellings; a bare token rejected by `float()`
is kept as the raw, untrimmed string. -/
theorem C6_amended (v : List Char) :
    (specNarrowNum v = true → ∃ d, parse_value v = .num (.fin d)) ∧
    (isQuoteWrapped v = false → pyFloat v = none → parse_value v = .str v) ∧
    parse_value (("1e5").data) = .num (.fin ⟨100000, 0⟩) := by
  refine ⟨?_, ?_, by decide⟩
  · intro h
    obtain ⟨dn, hdn⟩ := specNarrow_pyFloat v h
    refine ⟨dn, ?_⟩
    simp [parse_value, specNarrow_not_quoted v h, hdn]
  · intro h hp
    simp [parse_value, h, hp]

/-- Witness for `C6_amended`: `-3.5` is in the narrow grammar and converts;
`abc` is rejected by `float()` and kept as the raw string. -/
theorem C6_amended_witness :
    (∃ d, parse_value (("-3.5").data) = .num (.fin d)) ∧
    parse_value (("abc").data) = .str (("abc").data) :=
  ⟨(C6_amended (("-3.5").data)).1 (by decide),
   (C6_amended (("abc").data)).2.1 (by decide) (by decide)⟩

end InMemoryDB
